import Mathlib

/-!
Verification of the MVO generator (`generate_outputs.py`): a line-oriented
format parser (`load_objects_from_mvo`), a score builder
(`create_midi_from_mvo`) and a scene builder (`create_vtk_from_mvo`).

Strings are modelled as `List Char` (obtained from Lean string literals via
`String.data`); Python's text operations (`strip`, `split` with and without
a maxsplit argument, `in`) are given as executable functions below that
mirror CPython semantics on the character lists.  Python floats are
modelled exactly: `float(s)` on a plain optionally-signed decimal literal
yields the rational `num / den`, kept as the unreduced pair `PyNum` so that
every definition evaluates inside the kernel; `pyVal` reads the pair back
as a rational number.  Fallible Python code (uncaught `ValueError`,
`KeyError`, `IndexError`, `TypeError`) is modelled with `Except String`.
-/

/-- Decidable equality of modelled run results. -/
instance {ε α : Type} [DecidableEq ε] [DecidableEq α] : DecidableEq (Except ε α) := fun a b =>
  match a, b with
  | .ok x, .ok y =>
    match decEq x y with
    | isTrue h => isTrue (by rw [h])
    | isFalse h => isFalse (by intro hc; cases hc; exact h rfl)
  | .error x, .error y =>
    match decEq x y with
    | isTrue h => isTrue (by rw [h])
    | isFalse h => isFalse (by intro hc; cases hc; exact h rfl)
  | .ok _, .error _ => isFalse (by intro hc; cases hc)
  | .error _, .ok _ => isFalse (by intro hc; cases hc)

namespace MVO

/-- Whitespace characters removed by Python's `str.strip()` (the ASCII
subset, which covers every line of the MVO format). -/
def isSpaceChar (c : Char) : Bool :=
  c = ' ' || c = '\t' || c = '\n' || c = '\r' || c = '\x0b' || c = '\x0c'

/-- Model of Python `s.strip()`. -/
def pyStrip (cs : List Char) : List Char :=
  ((cs.dropWhile isSpaceChar).reverse.dropWhile isSpaceChar).reverse

/-- Model of Python `s.split(sep)` for a one-character separator `sep`
(used by the source as `.split('_')`). -/
def splitChar (sep : Char) : List Char → List (List Char)
  | [] => [[]]
  | c :: cs =>
    if c = sep then [] :: splitChar sep cs
    else
      match splitChar sep cs with
      | [] => [[c]]
      | h :: t => (c :: h) :: t

/-- Model of Python `s.split(sep)` for a two-character separator `a⬝b`
(used by the source as `.split(', ')`). -/
def split2 (a b : Char) : List Char → List (List Char)
  | [] => [[]]
  | [c] => [[c]]
  | c :: d :: cs =>
    if c = a && d = b then [] :: split2 a b cs
    else
      match split2 a b (d :: cs) with
      | [] => [[c]]
      | h :: t => (c :: h) :: t

/-- Model of Python `s.split(a⬝b, 1)` restricted to the two-element
unpacking done by the source: `some (before, after)` when the separator
occurs, `none` when it does not (in which case the source's
`key, value = line.split(': ', 1)` raises `ValueError`). -/
def splitOnce2 (a b : Char) : List Char → Option (List Char × List Char)
  | [] => none
  | [_] => none
  | c :: d :: cs =>
    if c = a && d = b then some ([], cs)
    else
      match splitOnce2 a b (d :: cs) with
      | none => none
      | some (k, v) => some (c :: k, v)

/-- Model of Python `x in s` for a character `x`. -/
def containsChar (x : Char) (cs : List Char) : Bool :=
  cs.any (fun c => c = x)

/-- Decimal digit test. -/
def isDigitChar (c : Char) : Bool :=
  48 ≤ c.toNat && c.toNat ≤ 57

/-- Value of a digit string. -/
def digitsVal (cs : List Char) : Nat :=
  cs.foldl (fun a c => a * 10 + (c.toNat - 48)) 0

/-- Exact value of a parsed Python float, kept as an unreduced
numerator/denominator pair (the denominator is the power of ten of the
fractional part). -/
structure PyNum where
  num : Int
  den : Nat
deriving DecidableEq

/-- Rational value of a parsed float. -/
def pyVal (p : PyNum) : ℚ :=
  (p.num : ℚ) / (p.den : ℚ)

/-- Model of Python `float(s)` on optionally signed plain decimal literals
(the only shape the MVO format carries): strip, optional sign, digits with
at most one decimal point, at least one digit.  Anything else is `none`,
modelling the `ValueError` that `float` raises. -/
def pyFloat (cs : List Char) : Option PyNum :=
  let t := pyStrip cs
  let sgBody : Int × List Char :=
    match t with
    | '-' :: r => (-1, r)
    | '+' :: r => (1, r)
    | r => (1, r)
  match splitChar '.' sgBody.2 with
  | [ip] =>
    if ip.isEmpty || !ip.all isDigitChar then none
    else some ⟨sgBody.1 * digitsVal ip, 1⟩
  | [ip, fp] =>
    if (ip.isEmpty && fp.isEmpty) || !ip.all isDigitChar || !fp.all isDigitChar then none
    else some ⟨sgBody.1 * (digitsVal ip * 10 ^ fp.length + digitsVal fp), 10 ^ fp.length⟩
  | _ => none

/-- Model of `tuple(map(float, value.split(', ')))`: every comma-space
separated component must parse as a float, otherwise `ValueError`. -/
def pyFloatList (cs : List Char) : Option (List PyNum) :=
  (split2 ',' ' ' cs).mapM pyFloat

/-- Model of Python `int(f)` on a float: truncation toward zero. -/
def pyInt (p : PyNum) : Int :=
  Int.tdiv p.num p.den

/-- A parsed field value: strings stay verbatim, `size_duration` is a
float, `position` a tuple of floats. -/
inductive Value where
  | str : List Char → Value
  | num : PyNum → Value
  | pos : List PyNum → Value
deriving DecidableEq

/-- A record is a Python dict: an insertion-ordered association list. -/
abbrev Dict := List (List Char × Value)

/-- Model of `d[k] = v` on a Python dict: overwrite in place when the key
exists, append otherwise. -/
def dictInsert (d : Dict) (k : List Char) (v : Value) : Dict :=
  if d.any (fun p => p.1 = k) then
    d.map (fun p => if p.1 = k then (k, v) else p)
  else d ++ [(k, v)]

/-- Association-list lookup (model of `d[k]` / `d.get(k)`). -/
def alistLookup {β : Type} : List (List Char × β) → List Char → Option β
  | [], _ => none
  | (k', v) :: rest, k => if k' = k then some v else alistLookup rest k

/-- The fixed note table of the source (`note_mappings`). -/
def note_mappings : List (List Char × Nat) :=
  [("C4".data, 60), ("D4".data, 62), ("E4".data, 64), ("F4".data, 65),
   ("G4".data, 67), ("A4".data, 69), ("B4".data, 71),
   ("C5".data, 72), ("D5".data, 74), ("E5".data, 76), ("F5".data, 77)]

/-- The source's `note_to_midi`: table lookup with default 60 (Middle C). -/
def note_to_midi (note : List Char) : Nat :=
  (alistLookup note_mappings note).getD 60

/-- Parser state of `load_objects_from_mvo`.  Python's `objects.append(
current_object)` appends a *reference*; later in-place mutation of the
current dict is visible through every appended reference.  The state
therefore keeps an arena of allocated dicts, the emitted list as indices
into the arena, and the index of the current accumulator. -/
structure PState where
  arena : List Dict
  objects : List Nat
  cur : Nat
deriving DecidableEq

/-- The dict currently referenced by `current_object`. -/
def getCur (st : PState) : Dict :=
  st.arena.getD st.cur []

/-- In-place update `current_object[key] = value`. -/
def updateCur (st : PState) (k : List Char) (v : Value) : PState :=
  { st with arena := st.arena.set st.cur (dictInsert (getCur st) k v) }

/-- One iteration of the parser loop of `load_objects_from_mvo`, on one
raw input line. -/
def parseStep (st : PState) (rawLine : List Char) : Except String PState :=
  let line := pyStrip rawLine
  if line = "begin_object".data then
    .ok { arena := st.arena ++ [[]], objects := st.objects, cur := st.arena.length }
  else if line = "end_object".data then
    .ok { st with
          objects := if (getCur st).isEmpty then st.objects else st.objects ++ [st.cur] }
  else if !line.isEmpty && containsChar ':' line then
    match splitOnce2 ':' ' ' line with
    | none => .error "ValueError: not enough values to unpack"
    | some (key, value) =>
      if key = "position".data then
        match pyFloatList value with
        | none => .error "ValueError: could not convert string to float"
        | some qs => .ok (updateCur st key (Value.pos qs))
      else if key = "size_duration".data then
        match pyFloat value with
        | none => .error "ValueError: could not convert string to float"
        | some q => .ok (updateCur st key (Value.num q))
      else .ok (updateCur st key (Value.str value))
  else .ok st

/-- Error-propagating fold: one loop that stops at the first uncaught
exception, shared by the parser and the two builders. -/
def foldSteps {σ α : Type} (f : σ → α → Except String σ) : σ → List α → Except String σ
  | s, [] => .ok s
  | s, x :: xs =>
    match f s x with
    | .ok s' => foldSteps f s' xs
    | .error e => .error e

/-- State at entry of the parser loop: `objects = []`, `current_object`
a fresh empty dict. -/
def initPState : PState :=
  { arena := [[]], objects := [], cur := 0 }

/-- The source's `load_objects_from_mvo`, on the list of input lines:
run the loop, then read each emitted reference out of the arena. -/
def load_objects_from_mvo (lines : List (List Char)) : Except String (List Dict) :=
  match foldSteps parseStep initPState lines with
  | .ok st => .ok (st.objects.map (fun i => st.arena.getD i []))
  | .error e => .error e

/-- First component of a compound token: Python `s.split('_')[0]` (total,
since `split` always returns at least one element). -/
def firstComp (s : List Char) : List Char :=
  (splitChar '_' s).headD []

/-- A note event as passed to `midi.addNote`: track, channel, pitch,
start time (beats, always 0 in the source), duration, volume. -/
structure NoteEvent where
  track : Nat
  channel : Nat
  pitch : Nat
  time : Nat
  duration : Int
  volume : Nat
deriving DecidableEq

/-- The musical document accumulated through the `MIDIFile` object:
`numTracks` is the constructor argument `len(objects)`; the lists record
the `addTrackName`, `addTempo`, `addProgramChange` and `addNote` calls in
order.  Track names and tempos are `(track index, payload)` pairs;
programs are `(track, channel, program)` triples at time 0. -/
structure MidiDoc where
  numTracks : Nat
  trackNames : List (Nat × List Char)
  tempos : List (Nat × Nat)
  programs : List (Nat × Nat × Nat)
  notes : List NoteEvent
deriving DecidableEq

/-- Loop state of `create_midi_from_mvo`: the `track_details` dict, the
`current_track` counter, and the document built so far. -/
structure MState where
  details : List (List Char × Nat)
  nextTrack : Nat
  doc : MidiDoc
deriving DecidableEq

/-- One iteration of the `for obj in objects` loop of
`create_midi_from_mvo`. -/
def midiStep (st : MState) (obj : Dict) : Except String MState :=
  match alistLookup obj "instrument_shape".data with
  | none => .error "KeyError: instrument_shape"
  | some (Value.num _) => .error "AttributeError: no attribute split"
  | some (Value.pos _) => .error "AttributeError: no attribute split"
  | some (Value.str is) =>
    let instrument := firstComp is
    let st1 :=
      if (alistLookup st.details instrument).isSome then st
      else
        { details := st.details ++ [(instrument, st.nextTrack)],
          nextTrack := st.nextTrack + 1,
          doc := { st.doc with
                   trackNames := st.doc.trackNames ++ [(st.nextTrack, instrument)],
                   tempos := st.doc.tempos ++ [(st.nextTrack, 120)] } }
    let track := (alistLookup st1.details instrument).getD 0
    match alistLookup obj "note_color".data with
    | none => .error "KeyError: note_color"
    | some (Value.num _) => .error "AttributeError: no attribute split"
    | some (Value.pos _) => .error "AttributeError: no attribute split"
    | some (Value.str nc) =>
      let note := note_to_midi (firstComp nc)
      match alistLookup obj "size_duration".data with
      | none => .error "KeyError: size_duration"
      | some (Value.str _) => .error "ValueError: invalid literal for int"
      | some (Value.pos _) => .error "TypeError: int argument must not be a tuple"
      | some (Value.num d) =>
        .ok { st1 with
              doc := { st1.doc with
                       programs := st1.doc.programs ++ [(track, 0, 1)],
                       notes := st1.doc.notes ++
                         [⟨track, 0, note, 0, pyInt d, 100⟩] } }

/-- The track/note construction loop of `create_midi_from_mvo`, from an
already-parsed record list (the part of the source between the
`MIDIFile(len(objects))` constructor and the file write). -/
def createMidiFromObjects (objs : List Dict) : Except String MidiDoc :=
  match foldSteps midiStep
      { details := [], nextTrack := 0,
        doc := { numTracks := objs.length, trackNames := [], tempos := [],
                 programs := [], notes := [] } } objs with
  | .ok st => .ok st.doc
  | .error e => .error e

/-- The source's `create_midi_from_mvo` up to the external file writer:
parse, then build the musical document; any uncaught exception aborts. -/
def create_midi_from_mvo (lines : List (List Char)) : Except String MidiDoc :=
  match load_objects_from_mvo lines with
  | .ok objs => createMidiFromObjects objs
  | .error e => .error e

/-- A solid handed to the external renderer: a sphere with its radius, or
a cube with its three edge lengths (the source sets X, Y and Z length
separately), plus the color name and the position tuple. -/
inductive Solid where
  | sphere (radius : PyNum) (color : List Char) (position : List PyNum)
  | cube (xlen ylen zlen : PyNum) (color : List Char) (position : List PyNum)
deriving DecidableEq

/-- One iteration of the `for obj in objects` loop of
`create_vtk_from_mvo`, in source order: `instrument_shape` split (index 1
raises `IndexError` when absent), `note_color` split, `size_duration`
read, then the shape dispatch; `position` is only read inside the sphere
and cube branches, and must unpack into the three `SetPosition`
arguments. -/
def vtkStep (acc : List Solid) (obj : Dict) : Except String (List Solid) :=
  match alistLookup obj "instrument_shape".data with
  | none => .error "KeyError: instrument_shape"
  | some (Value.num _) => .error "AttributeError: no attribute split"
  | some (Value.pos _) => .error "AttributeError: no attribute split"
  | some (Value.str is) =>
    match (splitChar '_' is)[1]? with
    | none => .error "IndexError: list index out of range"
    | some shape =>
      match alistLookup obj "note_color".data with
      | none => .error "KeyError: note_color"
      | some (Value.num _) => .error "AttributeError: no attribute split"
      | some (Value.pos _) => .error "AttributeError: no attribute split"
      | some (Value.str nc) =>
        match (splitChar '_' nc)[1]? with
        | none => .error "IndexError: list index out of range"
        | some color =>
          match alistLookup obj "size_duration".data with
          | none => .error "KeyError: size_duration"
          | some (Value.str _) => .error "TypeError: size must be a float"
          | some (Value.pos _) => .error "TypeError: size must be a float"
          | some (Value.num size) =>
            if shape = "sphere".data then
              match alistLookup obj "position".data with
              | some (Value.pos [x, y, z]) =>
                  .ok (acc ++ [Solid.sphere size color [x, y, z]])
              | some _ => .error "TypeError: SetPosition argument"
              | none => .error "KeyError: position"
            else if shape = "cube".data then
              match alistLookup obj "position".data with
              | some (Value.pos [x, y, z]) =>
                  .ok (acc ++ [Solid.cube size size size color [x, y, z]])
              | some _ => .error "TypeError: SetPosition argument"
              | none => .error "KeyError: position"
            else .ok acc

/-- The actor-construction loop of `create_vtk_from_mvo`, from an
already-parsed record list; the returned list is the ordered list of
solids added to the renderer. -/
def createVtkFromObjects (objs : List Dict) : Except String (List Solid) :=
  foldSteps vtkStep [] objs

/-- The source's `create_vtk_from_mvo` up to the external render window:
parse, then build the ordered solid list. -/
def create_vtk_from_mvo (lines : List (List Char)) : Except String (List Solid) :=
  match load_objects_from_mvo lines with
  | .ok objs => createVtkFromObjects objs
  | .error e => .error e

/-- Success test for a modelled run (false exactly when the Python code
raises an uncaught exception). -/
def isOkE {ε α : Type} : Except ε α → Bool
  | .ok _ => true
  | .error _ => false

/-- A line that makes the parser raise `ValueError` from a non-numeric
`position` or `size_duration` value: after stripping it is no marker, it
reaches the field branch, its key is `position` with a component that
does not parse as a float, or `size_duration` with a value that does not
parse as a float. -/
def badNumLine (l : List Char) : Bool :=
  if pyStrip l = "begin_object".data then false
  else if pyStrip l = "end_object".data then false
  else if !(pyStrip l).isEmpty && containsChar ':' (pyStrip l) then
    match splitOnce2 ':' ' ' (pyStrip l) with
    | none => false
    | some (k, v) =>
      (k = "position".data && (pyFloatList v).isNone) ||
      (k = "size_duration".data && (pyFloat v).isNone)
  else false

/-- A well-formed field line: after stripping it is no marker, it reaches
the field branch, splits on the first `: `, and its value passes the
field-specific coercion. -/
def isGoodField (l : List Char) : Bool :=
  if pyStrip l = "begin_object".data then false
  else if pyStrip l = "end_object".data then false
  else if !(pyStrip l).isEmpty && containsChar ':' (pyStrip l) then
    match splitOnce2 ':' ' ' (pyStrip l) with
    | none => false
    | some (k, v) =>
      if k = "position".data then (pyFloatList v).isSome
      else if k = "size_duration".data then (pyFloat v).isSome
      else true
  else false

/-- The source's field-specific coercion of a split key/value pair. -/
def coerceField (k v : List Char) : List Char × Value :=
  if k = "position".data then (k, Value.pos ((pyFloatList v).getD []))
  else if k = "size_duration".data then (k, Value.num ((pyFloat v).getD ⟨0, 1⟩))
  else (k, Value.str v)

/-- The key/value pair a well-formed field line stores into the current
record, with the source's field-specific coercion. -/
def fieldOf (l : List Char) : List Char × Value :=
  match splitOnce2 ':' ' ' (pyStrip l) with
  | none => ([], Value.str [])
  | some (k, v) => coerceField k v

/-- The record accumulated from a list of field lines, starting from a
given dict. -/
def recordFold (d : Dict) (fs : List (List Char)) : Dict :=
  fs.foldl (fun d l => dictInsert d (fieldOf l).1 (fieldOf l).2) d

/-- The record a block body yields. -/
def recordOf (fs : List (List Char)) : Dict :=
  recordFold [] fs

/-- The input lines of a sequence of `begin_object` … `end_object`
blocks with the given bodies. -/
def blocksLines : List (List (List Char)) → List (List Char)
  | [] => []
  | fs :: bs => ("begin_object".data :: fs ++ ["end_object".data]) ++ blocksLines bs

/-- Arena indices the parser emits for a sequence of blocks whose first
block's record is allocated at index `base`: one index per block with a
non-empty body, in order. -/
def emittedIdx (base : Nat) : List (List (List Char)) → List Nat
  | [] => []
  | fs :: bs => (if fs.isEmpty then [] else [base]) ++ emittedIdx (base + 1) bs

/-- First-encounter deduplication step (the `if instrument not in
track_details` test of the score builder, on the instrument sequence). -/
def dedupStep (acc : List (List Char)) (x : List Char) : List (List Char) :=
  if x ∈ acc then acc else acc ++ [x]

/-- First-encounter deduplication of a token sequence, continued from an
already-seen list. -/
def seenFold (acc : List (List Char)) (l : List (List Char)) : List (List Char) :=
  l.foldl dedupStep acc

/-- Distinct tokens of a sequence, in first-encounter order. -/
def dedupFirst (l : List (List Char)) : List (List Char) :=
  seenFold [] l

/-- Pair every element with its index, counting from `n`. -/
def enumFrom (n : Nat) : List (List Char) → List (Nat × List Char)
  | [] => []
  | x :: xs => (n, x) :: enumFrom (n + 1) xs

/-- Association list mapping each element to its index, counting from
`n` (the shape of the score builder's `track_details`). -/
def assocFrom (n : Nat) : List (List Char) → List (List Char × Nat)
  | [] => []
  | x :: xs => (x, n) :: assocFrom (n + 1) xs

/-- Index of the first occurrence of a token. -/
def idxOf : List (List Char) → List Char → Nat
  | [], _ => 0
  | y :: ys, x => if y = x then 0 else idxOf ys x + 1

/-- The instrument token of a record (substring of `instrument_shape`
before the first underscore); dummy on records the score builder rejects. -/
def getInstr (r : Dict) : List Char :=
  match alistLookup r "instrument_shape".data with
  | some (Value.str s) => firstComp s
  | _ => []

/-- The note token of a record (substring of `note_color` before the
first underscore); dummy on rejected records. -/
def getNoteTok (r : Dict) : List Char :=
  match alistLookup r "note_color".data with
  | some (Value.str s) => firstComp s
  | _ => []

/-- The `size_duration` value of a record; dummy on rejected records. -/
def getSize (r : Dict) : PyNum :=
  match alistLookup r "size_duration".data with
  | some (Value.num q) => q
  | _ => ⟨0, 1⟩

/-- A record the score builder accepts: the three fields it reads are
present with the type the parser gives them. -/
def midiWF (r : Dict) : Bool :=
  (match alistLookup r "instrument_shape".data with
   | some (Value.str _) => true
   | _ => false) &&
  (match alistLookup r "note_color".data with
   | some (Value.str _) => true
   | _ => false) &&
  (match alistLookup r "size_duration".data with
   | some (Value.num _) => true
   | _ => false)

/-- The musical document the score builder is specified to produce: one
track per distinct instrument token in first-encounter order (name = the
instrument, tempo 120), and per input record one program change and one
note event on that record's instrument's track, pitch from the note
table, duration truncated, start 0, channel 0, volume 100. -/
def scoreSpec (objs : List Dict) : MidiDoc :=
  let dd := dedupFirst (objs.map getInstr)
  { numTracks := objs.length,
    trackNames := enumFrom 0 dd,
    tempos := (enumFrom 0 dd).map (fun p => (p.1, 120)),
    programs := objs.map (fun r => (idxOf dd (getInstr r), 0, 1)),
    notes := objs.map (fun r =>
      ⟨idxOf dd (getInstr r), 0, note_to_midi (getNoteTok r), 0, pyInt (getSize r), 100⟩) }

/-- The shape token of a record: the component of `instrument_shape`
after the first underscore, when present. -/
def shapeTok (r : Dict) : Option (List Char) :=
  match alistLookup r "instrument_shape".data with
  | some (Value.str s) => (splitChar '_' s)[1]?
  | _ => none

/-- The color token of a record: the component of `note_color` after the
first underscore, when present. -/
def colorTok (r : Dict) : Option (List Char) :=
  match alistLookup r "note_color".data with
  | some (Value.str s) => (splitChar '_' s)[1]?
  | _ => none

/-- The position tuple of a record, when present. -/
def posVal (r : Dict) : Option (List PyNum) :=
  match alistLookup r "position".data with
  | some (Value.pos l) => some l
  | _ => none

/-- A record the scene builder processes without an exception: shape and
color tokens resolve, `size_duration` is a float, and — only when the
shape is drawn at all — the position is a 3-tuple. -/
def vtkWF (r : Dict) : Bool :=
  (shapeTok r).isSome && (colorTok r).isSome &&
  (match alistLookup r "size_duration".data with
   | some (Value.num _) => true
   | _ => false) &&
  (if shapeTok r = some "sphere".data || shapeTok r = some "cube".data then
     match posVal r with
     | some [_, _, _] => true
     | _ => false
   else true)

/-- The solid a record contributes to the scene, when its shape token is
recognized. -/
def mkSolid (r : Dict) : Option Solid :=
  match shapeTok r with
  | some s =>
    if s = "sphere".data then
      some (Solid.sphere (getSize r) ((colorTok r).getD []) ((posVal r).getD []))
    else if s = "cube".data then
      some (Solid.cube (getSize r) (getSize r) (getSize r)
        ((colorTok r).getD []) ((posVal r).getD []))
    else none
  | none => none

/-! Helper lemmas. -/

/-- An uncaught exception in any loop iteration aborts the whole fold. -/
theorem foldSteps_isOkE_false {σ α : Type} (f : σ → α → Except String σ) (bad : α → Prop)
    (hb : ∀ s x, bad x → isOkE (f s x) = false)
    (l : List α) : ∀ s : σ, (∃ x ∈ l, bad x) → isOkE (foldSteps f s l) = false := by
  induction l with
  | nil => intro s h; simp at h
  | cons x xs ih =>
    intro s h
    unfold foldSteps
    cases hfx : f s x with
    | error e => rfl
    | ok s' =>
      rcases h with ⟨y, hy, hbad⟩
      rcases List.mem_cons.mp hy with rfl | hmem
      · have hfalse := hb s y hbad
        rw [hfx] at hfalse
        exact absurd hfalse (by simp [isOkE])
      · exact ih s' ⟨y, hmem, hbad⟩

/-- A successful fold is unaffected by claiming the contrary. -/
theorem isOkE_ok {ε α : Type} (x : α) : isOkE (ε := ε) (.ok x) = true := rfl

/-- Processing a `begin_object` line: allocate a fresh dict and point the
accumulator at it. -/
theorem parse_begin_step (st : PState) :
    parseStep st "begin_object".data =
      .ok { arena := st.arena ++ [[]], objects := st.objects, cur := st.arena.length } := by
  have h1 : pyStrip "begin_object".data = "begin_object".data := by decide
  simp only [parseStep, h1]
  simp

/-- Processing an `end_object` line: append the accumulator's index when
it is non-empty; the accumulator itself is untouched. -/
theorem parse_end_step (st : PState) :
    parseStep st "end_object".data =
      .ok { st with
            objects := if (getCur st).isEmpty then st.objects else st.objects ++ [st.cur] } := by
  have h1 : pyStrip "end_object".data = "end_object".data := by decide
  simp only [parseStep, h1]
  simp

/-- A line that fails the float coercion aborts the parse from any
state. -/
theorem parse_bad_step (st : PState) (l : List Char) (h : badNumLine l = true) :
    isOkE (parseStep st l) = false := by
  unfold badNumLine at h
  unfold parseStep
  by_cases hbeg : pyStrip l = "begin_object".data
  · rw [if_pos hbeg] at h; exact absurd h (by simp)
  rw [if_neg hbeg] at h
  rw [if_neg hbeg]
  by_cases hend : pyStrip l = "end_object".data
  · rw [if_pos hend] at h; exact absurd h (by simp)
  rw [if_neg hend] at h
  rw [if_neg hend]
  by_cases hcond : (!(pyStrip l).isEmpty && containsChar ':' (pyStrip l)) = true
  · rw [if_pos hcond] at h
    rw [if_pos hcond]
    cases heq : splitOnce2 ':' ' ' (pyStrip l) with
    | none => rfl
    | some kv =>
      obtain ⟨k, v⟩ := kv
      rw [heq] at h
      dsimp only at h ⊢
      simp only [Bool.or_eq_true, Bool.and_eq_true, decide_eq_true_eq] at h
      rcases h with ⟨hk, hv⟩ | ⟨hk, hv⟩
      · rw [if_pos hk, Option.isNone_iff_eq_none.mp hv]
        rfl
      · have hne : ¬(k = "position".data) := by rw [hk]; decide
        rw [if_neg hne, if_pos hk, Option.isNone_iff_eq_none.mp hv]
        rfl
  · rw [if_neg hcond] at h; exact absurd h (by simp)

/-- A record missing one of the three fields the score builder reads
aborts the build from any loop state. -/
theorem midi_missing_step (r : Dict)
    (h : alistLookup r "instrument_shape".data = none ∨
         alistLookup r "note_color".data = none ∨
         alistLookup r "size_duration".data = none)
    (st : MState) : isOkE (midiStep st r) = false := by
  unfold midiStep
  cases h1 : alistLookup r "instrument_shape".data with
  | none => rfl
  | some v =>
    cases v with
    | num q => rfl
    | pos l => rfl
    | str s =>
      rcases h with h | h | h
      · rw [h1] at h; exact absurd h (by simp)
      · simp only [h]
        rfl
      · cases h2 : alistLookup r "note_color".data with
        | none => simp only [h2]; rfl
        | some w =>
          cases w with
          | num q => simp only [h2]; rfl
          | pos l => simp only [h2]; rfl
          | str nc => simp only [h2, h]; rfl

/-- A record whose `instrument_shape` has no second underscore component
aborts the scene build from any loop state. -/
theorem vtk_noshape_step (acc : List Solid) (r : Dict)
    (h : ∃ s, alistLookup r "instrument_shape".data = some (Value.str s) ∧
          (splitChar '_' s)[1]? = none) :
    isOkE (vtkStep acc r) = false := by
  rcases h with ⟨s, h1, h2⟩
  simp only [vtkStep, h1, h2]
  rfl

/-- Deduplication only ever appends to the already-seen list. -/
theorem seenFold_prefix (l : List (List Char)) :
    ∀ acc : List (List Char), ∃ t, seenFold acc l = acc ++ t := by
  induction l with
  | nil => intro acc; exact ⟨[], by simp [seenFold]⟩
  | cons x xs ih =>
    intro acc
    have hcons : seenFold acc (x :: xs) = seenFold (dedupStep acc x) xs := rfl
    obtain ⟨t, ht⟩ := ih (dedupStep acc x)
    by_cases hx : x ∈ acc
    · exact ⟨t, by rw [hcons, ht]; simp [dedupStep, hx]⟩
    · refine ⟨x :: t, ?_⟩
      rw [hcons, ht]
      simp [dedupStep, hx]

/-- Unfolding of one deduplication step. -/
theorem seenFold_cons (acc : List (List Char)) (x : List Char) (l : List (List Char)) :
    seenFold acc (x :: l) = seenFold (dedupStep acc x) l := rfl

/-- The index of a first occurrence is unaffected by appending. -/
theorem idxOf_append (x : List Char) (l t : List (List Char)) (h : x ∈ l) :
    idxOf (l ++ t) x = idxOf l x := by
  induction l with
  | nil => cases h
  | cons y ys ih =>
    by_cases hyx : y = x
    · simp [idxOf, hyx]
    · have hx : x ∈ ys := by
        rcases List.mem_cons.mp h with rfl | hx
        · exact absurd rfl hyx
        · exact hx
      simp [idxOf, hyx, ih hx]

/-- A fresh element appended at the end sits at index `length`. -/
theorem idxOf_append_self (x : List Char) (l : List (List Char)) (h : x ∉ l) :
    idxOf (l ++ [x]) x = l.length := by
  induction l with
  | nil => simp [idxOf]
  | cons y ys ih =>
    have hyx : ¬(y = x) := fun hc => h (hc ▸ List.mem_cons_self y ys)
    have hx : x ∉ ys := fun hc => h (List.mem_cons_of_mem y hc)
    simp [idxOf, hyx, ih hx]

/-- Looking up a present token in the index association list yields its
first-occurrence index (shifted by the starting index). -/
theorem alistLookup_assocFrom_mem (x : List Char) (l : List (List Char)) (h : x ∈ l) :
    ∀ n, alistLookup (assocFrom n l) x = some (n + idxOf l x) := by
  induction l with
  | nil => cases h
  | cons y ys ih =>
    intro n
    by_cases hyx : y = x
    · simp [assocFrom, alistLookup, idxOf, hyx]
    · have hx : x ∈ ys := by
        rcases List.mem_cons.mp h with rfl | hx
        · exact absurd rfl hyx
        · exact hx
      simp only [assocFrom, alistLookup, idxOf, if_neg hyx, ih hx (n + 1)]
      congr 1
      omega

/-- Looking up an absent token in the index association list fails. -/
theorem alistLookup_assocFrom_not_mem (x : List Char) (l : List (List Char)) (h : x ∉ l) :
    ∀ n, alistLookup (assocFrom n l) x = none := by
  induction l with
  | nil => intro n; rfl
  | cons y ys ih =>
    intro n
    have hyx : ¬(y = x) := fun hc => h (hc ▸ List.mem_cons_self y ys)
    have hx : x ∉ ys := fun hc => h (List.mem_cons_of_mem y hc)
    simp [assocFrom, alistLookup, hyx, ih hx (n + 1)]

/-- Appending to the token list appends to its index association list. -/
theorem assocFrom_append (l : List (List Char)) (x : List Char) :
    ∀ n, assocFrom n (l ++ [x]) = assocFrom n l ++ [(x, n + l.length)] := by
  induction l with
  | nil => intro n; simp [assocFrom]
  | cons y ys ih =>
    intro n
    have harith : n + 1 + ys.length = n + (ys.length + 1) := by omega
    simp [assocFrom, ih (n + 1), harith]

/-- Appending to the token list appends to its enumeration. -/
theorem enumFrom_append (l : List (List Char)) (x : List Char) :
    ∀ n, enumFrom n (l ++ [x]) = enumFrom n l ++ [(n + l.length, x)] := by
  induction l with
  | nil => intro n; simp [enumFrom]
  | cons y ys ih =>
    intro n
    have harith : n + 1 + ys.length = n + (ys.length + 1) := by omega
    simp [enumFrom, ih (n + 1), harith]

/-- The error-propagating fold splits over list concatenation. -/
theorem foldSteps_append {σ α : Type} (f : σ → α → Except String σ) (l1 l2 : List α) :
    ∀ s : σ, foldSteps f s (l1 ++ l2) =
      match foldSteps f s l1 with
      | .ok s' => foldSteps f s' l2
      | .error e => .error e := by
  induction l1 with
  | nil => intro s; rfl
  | cons x xs ih =>
    intro s
    simp only [List.cons_append, foldSteps]
    cases f s x with
    | error e => rfl
    | ok s' => exact ih s'

/-- The element placed right after a prefix is read back at the prefix's
length. -/
theorem getD_append_cons (A : List Dict) (x : Dict) (post : List Dict) (d : Dict) :
    (A ++ x :: post).getD A.length d = x := by
  induction A with
  | nil => rfl
  | cons a A' ih => simpa using ih

/-- Writing right after a prefix replaces exactly that element. -/
theorem set_append_cons (A : List Dict) (x y : Dict) (post : List Dict) :
    (A ++ x :: post).set A.length y = A ++ y :: post := by
  induction A with
  | nil => rfl
  | cons a A' ih => simpa using ih

/-- Reading an index back after writing it. -/
theorem getD_set_self (l : List Dict) : ∀ i : Nat, i < l.length →
    ∀ (x : Dict) (d : Dict), (l.set i x).getD i d = x := by
  induction l with
  | nil => intro i hi; simp at hi
  | cons a l' ih =>
    intro i hi x d
    cases i with
    | zero => rfl
    | succ j => simpa using ih j (by simpa using hi) x d

/-- Writing an element back to its own position changes nothing. -/
theorem set_getD_self (l : List Dict) : ∀ i : Nat, i < l.length →
    l.set i (l.getD i []) = l := by
  induction l with
  | nil => intro i hi; simp at hi
  | cons a l' ih =>
    intro i hi
    cases i with
    | zero => rfl
    | succ j => simpa using ih j (by simpa using hi)

/-- A well-formed field line stores its coerced key/value pair into the
current record, from any state. -/
theorem parse_field_step (st : PState) (l : List Char) (h : isGoodField l = true) :
    parseStep st l = .ok (updateCur st (fieldOf l).1 (fieldOf l).2) := by
  unfold isGoodField at h
  unfold parseStep fieldOf
  by_cases hbeg : pyStrip l = "begin_object".data
  · rw [if_pos hbeg] at h; exact absurd h (by simp)
  rw [if_neg hbeg] at h
  rw [if_neg hbeg]
  by_cases hend : pyStrip l = "end_object".data
  · rw [if_pos hend] at h; exact absurd h (by simp)
  rw [if_neg hend] at h
  rw [if_neg hend]
  by_cases hcond : (!(pyStrip l).isEmpty && containsChar ':' (pyStrip l)) = true
  · rw [if_pos hcond] at h
    rw [if_pos hcond]
    cases heq : splitOnce2 ':' ' ' (pyStrip l) with
    | none => rw [heq] at h; exact absurd h (by simp)
    | some kv =>
      obtain ⟨k, v⟩ := kv
      rw [heq] at h
      replace h : (if k = "position".data then (pyFloatList v).isSome
          else if k = "size_duration".data then (pyFloat v).isSome else true) = true := h
      show (if k = "position".data then
              match pyFloatList v with
              | none => Except.error "ValueError: could not convert string to float"
              | some qs => Except.ok (updateCur st k (Value.pos qs))
            else if k = "size_duration".data then
              match pyFloat v with
              | none => Except.error "ValueError: could not convert string to float"
              | some q => Except.ok (updateCur st k (Value.num q))
            else Except.ok (updateCur st k (Value.str v))) =
          Except.ok (updateCur st (coerceField k v).1 (coerceField k v).2)
      unfold coerceField
      by_cases hk1 : k = "position".data
      · rw [if_pos hk1] at h
        rw [if_pos hk1, if_pos hk1]
        cases hfl : pyFloatList v with
        | none => exact absurd h (by simp [hfl])
        | some qs => rfl
      · rw [if_neg hk1] at h
        rw [if_neg hk1, if_neg hk1]
        by_cases hk2 : k = "size_duration".data
        · rw [if_pos hk2] at h
          rw [if_pos hk2, if_pos hk2]
          cases hfv : pyFloat v with
          | none => exact absurd h (by simp [hfv])
          | some q => rfl
        · rw [if_neg hk2, if_neg hk2]
  · rw [if_neg hcond] at h; exact absurd h (by simp)

/-- A run of well-formed field lines folds the record accumulation into
the current arena slot, touching nothing else. -/
theorem parse_fields_fold (fs : List (List Char)) :
    ∀ st : PState, (∀ l ∈ fs, isGoodField l = true) → st.cur < st.arena.length →
      foldSteps parseStep st fs =
        .ok { arena := st.arena.set st.cur (recordFold (getCur st) fs),
              objects := st.objects, cur := st.cur } := by
  induction fs with
  | nil =>
    intro st hgood hcur
    show Except.ok st = _
    unfold recordFold
    rw [List.foldl_nil]
    unfold getCur
    rw [set_getD_self st.arena st.cur hcur]
  | cons f fs' ih =>
    intro st hgood hcur
    have hf : isGoodField f = true := hgood f (List.mem_cons_self f fs')
    have hfs' : ∀ l ∈ fs', isGoodField l = true :=
      fun l hl => hgood l (List.mem_cons_of_mem f hl)
    unfold foldSteps
    rw [parse_field_step st f hf]
    dsimp only
    have hcur' : (updateCur st (fieldOf f).1 (fieldOf f).2).cur <
        (updateCur st (fieldOf f).1 (fieldOf f).2).arena.length := by
      simpa [updateCur] using hcur
    rw [ih _ hfs' hcur']
    simp only [updateCur, List.set_set]
    have hget : getCur
        { arena := st.arena.set st.cur (dictInsert (getCur st) (fieldOf f).1 (fieldOf f).2),
          objects := st.objects, cur := st.cur } =
        dictInsert (getCur st) (fieldOf f).1 (fieldOf f).2 := by
      unfold getCur
      exact getD_set_self st.arena st.cur hcur _ _
    rw [hget]
    rfl

/-- Inserting into a dict never empties it. -/
theorem dictInsert_ne_nil (d : Dict) (k : List Char) (v : Value) :
    dictInsert d k v ≠ [] := by
  unfold dictInsert
  by_cases h : d.any (fun p => p.1 = k)
  · rw [if_pos h]
    intro hc
    rw [List.map_eq_nil] at hc
    rw [hc] at h
    simp at h
  · rw [if_neg h]
    simp

/-- Record accumulation never empties a non-empty dict. -/
theorem recordFold_ne_nil (fs : List (List Char)) :
    ∀ d : Dict, d ≠ [] → recordFold d fs ≠ [] := by
  induction fs with
  | nil => intro d hd; exact hd
  | cons f fs' ih =>
    intro d hd
    exact ih _ (dictInsert_ne_nil d (fieldOf f).1 (fieldOf f).2)

/-- A block with at least one field line accumulates a non-empty
record. -/
theorem recordOf_ne_nil (fs : List (List Char)) (h : ¬fs.isEmpty = true) :
    recordOf fs ≠ [] := by
  cases fs with
  | nil => simp at h
  | cons f fs' =>
    exact recordFold_ne_nil fs' _ (dictInsert_ne_nil [] (fieldOf f).1 (fieldOf f).2)

/-- One `begin_object`/`end_object` block, from any state: it allocates
the block's record at the end of the arena and emits its index exactly
when the body is non-empty. -/
theorem parse_block_fold (fs : List (List Char)) (hgood : ∀ l ∈ fs, isGoodField l = true)
    (st : PState) :
    foldSteps parseStep st ("begin_object".data :: fs ++ ["end_object".data]) =
      .ok { arena := st.arena ++ [recordOf fs],
            objects := st.objects ++ (if fs.isEmpty then [] else [st.arena.length]),
            cur := st.arena.length } := by
  show foldSteps parseStep st ("begin_object".data :: (fs ++ ["end_object".data])) = _
  unfold foldSteps
  rw [parse_begin_step st]
  dsimp only
  rw [foldSteps_append]
  have hcur1 : st.arena.length < (st.arena ++ [([] : Dict)]).length := by simp
  rw [parse_fields_fold fs _ hgood hcur1]
  dsimp only
  have hget1 : getCur
      { arena := st.arena ++ [([] : Dict)], objects := st.objects,
        cur := st.arena.length } = [] := by
    unfold getCur
    exact getD_append_cons st.arena [] [] []
  rw [hget1]
  have hset1 : (st.arena ++ [([] : Dict)]).set st.arena.length (recordFold [] fs) =
      st.arena ++ [recordOf fs] := by
    exact set_append_cons st.arena [] (recordOf fs) []
  rw [hset1]
  unfold foldSteps
  rw [parse_end_step]
  dsimp only
  have hget2 : getCur
      { arena := st.arena ++ [recordOf fs], objects := st.objects,
        cur := st.arena.length } = recordOf fs := by
    unfold getCur
    exact getD_append_cons st.arena (recordOf fs) [] []
  rw [hget2]
  by_cases hfs : fs.isEmpty = true
  · have : recordOf fs = [] := by
      cases fs with
      | nil => rfl
      | cons f fs' => simp at hfs
    rw [if_pos hfs]
    simp [this]
    rfl
  · have hne : (recordOf fs).isEmpty = false := by
      cases he : (recordOf fs).isEmpty
      · rfl
      · exact absurd (List.isEmpty_iff.mp he) (recordOf_ne_nil fs hfs)
    rw [if_neg hfs]
    simp [hne]
    rfl

/-- A sequence of blocks, from any state: the arena grows by one record
per block and the emitted indices are those of the non-empty blocks. -/
theorem parse_blocks_fold (blocks : List (List (List Char))) :
    ∀ st : PState, (∀ b ∈ blocks, ∀ l ∈ b, isGoodField l = true) →
      ∃ c, foldSteps parseStep st (blocksLines blocks) =
        .ok { arena := st.arena ++ blocks.map recordOf,
              objects := st.objects ++ emittedIdx st.arena.length blocks,
              cur := c } := by
  induction blocks with
  | nil =>
    intro st hgood
    exact ⟨st.cur, by simp [blocksLines, foldSteps, emittedIdx]⟩
  | cons fs bs ih =>
    intro st hgood
    have hfs : ∀ l ∈ fs, isGoodField l = true := hgood fs (List.mem_cons_self fs bs)
    have hbs : ∀ b ∈ bs, ∀ l ∈ b, isGoodField l = true :=
      fun b hb => hgood b (List.mem_cons_of_mem fs hb)
    show ∃ c, foldSteps parseStep st
        (("begin_object".data :: fs ++ ["end_object".data]) ++ blocksLines bs) = _
    rw [foldSteps_append, parse_block_fold fs hfs st]
    dsimp only
    obtain ⟨c, hc⟩ := ih
      { arena := st.arena ++ [recordOf fs],
        objects := st.objects ++ (if fs.isEmpty then [] else [st.arena.length]),
        cur := st.arena.length } hbs
    refine ⟨c, ?_⟩
    rw [hc]
    simp [emittedIdx, List.append_assoc]

/-- Reading the emitted indices out of the arena yields exactly the
records of the non-empty blocks, in order, whatever lies after them in
the arena. -/
theorem emitted_map (blocks : List (List (List Char))) :
    ∀ pre post : List Dict,
      (emittedIdx pre.length blocks).map
          (fun i => ((pre ++ blocks.map recordOf) ++ post).getD i []) =
        (blocks.filter (fun b => !b.isEmpty)).map recordOf := by
  induction blocks with
  | nil => intro pre post; simp [emittedIdx]
  | cons fs bs ih =>
    intro pre post
    have hlen : (pre ++ [recordOf fs]).length = pre.length + 1 := by simp
    have harr2 : ((pre ++ [recordOf fs]) ++ bs.map recordOf) ++ post =
        (pre ++ (fs :: bs).map recordOf) ++ post := by simp
    have htail := ih (pre ++ [recordOf fs]) post
    rw [hlen] at htail
    simp only [harr2] at htail
    by_cases hfs : fs.isEmpty = true
    · have h1 : emittedIdx pre.length (fs :: bs) = emittedIdx (pre.length + 1) bs := by
        simp [emittedIdx, hfs]
      have h2 : (fs :: bs).filter (fun b => !b.isEmpty) =
          bs.filter (fun b => !b.isEmpty) := by
        simp [List.filter, hfs]
      rw [h1, h2, htail]
    · have h1 : emittedIdx pre.length (fs :: bs) =
          pre.length :: emittedIdx (pre.length + 1) bs := by
        simp [emittedIdx, hfs]
      have h2 : (fs :: bs).filter (fun b => !b.isEmpty) =
          fs :: bs.filter (fun b => !b.isEmpty) := by
        simp [List.filter, hfs]
      rw [h1, h2]
      simp only [List.map_cons, List.cons_append, List.append_assoc] at htail ⊢
      rw [getD_append_cons pre (recordOf fs) (List.map recordOf bs ++ post) []]
      rw [htail]

/-- One unfolding step of the error-propagating fold. -/
theorem foldSteps_cons {σ α : Type} (f : σ → α → Except String σ) (s : σ) (x : α)
    (xs : List α) :
    foldSteps f s (x :: xs) =
      match f s x with
      | .ok s' => foldSteps f s' xs
      | .error e => .error e := rfl

/-- A token is seen after its own deduplication step. -/
theorem mem_dedupStep (acc : List (List Char)) (x : List Char) : x ∈ dedupStep acc x := by
  by_cases h : x ∈ acc <;> simp [dedupStep, h]

/-- One score-builder iteration on an accepted record, relative to the
seen-instrument list: a new instrument opens a track (name and tempo) at
index `seen.length`; every record appends one program change and one
note event on its instrument's track. -/
theorem midi_step_wf (st : MState) (seen : List (List Char)) (r : Dict)
    (hwf : midiWF r = true)
    (hdet : st.details = assocFrom 0 seen) (hnt : st.nextTrack = seen.length) :
    midiStep st r = .ok
      { details := assocFrom 0 (dedupStep seen (getInstr r)),
        nextTrack := (dedupStep seen (getInstr r)).length,
        doc := { numTracks := st.doc.numTracks,
                 trackNames := st.doc.trackNames ++
                   (if getInstr r ∈ seen then [] else [(seen.length, getInstr r)]),
                 tempos := st.doc.tempos ++
                   (if getInstr r ∈ seen then [] else [(seen.length, 120)]),
                 programs := st.doc.programs ++
                   [(idxOf (dedupStep seen (getInstr r)) (getInstr r), 0, 1)],
                 notes := st.doc.notes ++
                   [⟨idxOf (dedupStep seen (getInstr r)) (getInstr r), 0,
                     note_to_midi (getNoteTok r), 0, pyInt (getSize r), 100⟩] } } := by
  unfold midiWF at hwf
  simp only [Bool.and_eq_true] at hwf
  obtain ⟨⟨hsh, hco⟩, hsz⟩ := hwf
  obtain ⟨s, his⟩ : ∃ s, alistLookup r "instrument_shape".data = some (Value.str s) := by
    cases his : alistLookup r "instrument_shape".data with
    | none => rw [his] at hsh; simp at hsh
    | some v =>
      cases v with
      | str s => exact ⟨s, rfl⟩
      | num q => rw [his] at hsh; simp at hsh
      | pos l => rw [his] at hsh; simp at hsh
  obtain ⟨nc, hnc⟩ : ∃ nc, alistLookup r "note_color".data = some (Value.str nc) := by
    cases hnc : alistLookup r "note_color".data with
    | none => rw [hnc] at hco; simp at hco
    | some v =>
      cases v with
      | str nc => exact ⟨nc, rfl⟩
      | num q => rw [hnc] at hco; simp at hco
      | pos l => rw [hnc] at hco; simp at hco
  obtain ⟨q, hsd⟩ : ∃ q, alistLookup r "size_duration".data = some (Value.num q) := by
    cases hsd : alistLookup r "size_duration".data with
    | none => rw [hsd] at hsz; simp at hsz
    | some v =>
      cases v with
      | num q => exact ⟨q, rfl⟩
      | str s' => rw [hsd] at hsz; simp at hsz
      | pos l => rw [hsd] at hsz; simp at hsz
  have hgi : getInstr r = firstComp s := by simp only [getInstr, his]
  have hgn : getNoteTok r = firstComp nc := by simp only [getNoteTok, hnc]
  have hgs : getSize r = q := by simp only [getSize, hsd]
  simp only [midiStep, his, hnc, hsd]
  rw [hgi, hgn, hgs, hdet, hnt]
  by_cases hi : firstComp s ∈ seen
  · have hds : dedupStep seen (firstComp s) = seen := by simp [dedupStep, hi]
    have hlk := alistLookup_assocFrom_mem (firstComp s) seen hi 0
    simp [hlk, hds, hi, hdet, hnt]
  · have hds : dedupStep seen (firstComp s) = seen ++ [firstComp s] := by
      simp [dedupStep, hi]
    have hlkn := alistLookup_assocFrom_not_mem (firstComp s) seen hi 0
    have happ : assocFrom 0 seen ++ [(firstComp s, seen.length)] =
        assocFrom 0 (seen ++ [firstComp s]) := by
      rw [assocFrom_append]
      simp
    have hlk2 : alistLookup (assocFrom 0 (seen ++ [firstComp s])) (firstComp s) =
        some seen.length := by
      rw [alistLookup_assocFrom_mem (firstComp s) (seen ++ [firstComp s]) (by simp) 0,
          idxOf_append_self (firstComp s) seen hi]
      simp
    simp [hlkn, happ, hlk2, hds, hi, idxOf_append_self (firstComp s) seen hi]

/-- Invariant of the score-builder loop: relative to the list of
instruments seen so far, the whole loop succeeds on accepted records,
producing the enumerated track list and one program change and note
event per record, with each note on its instrument's track. -/
theorem midi_fold (objs : List Dict) :
    ∀ (st : MState) (seen : List (List Char)),
      (∀ r ∈ objs, midiWF r = true) →
      st.details = assocFrom 0 seen →
      st.nextTrack = seen.length →
      st.doc.trackNames = enumFrom 0 seen →
      st.doc.tempos = (enumFrom 0 seen).map (fun p => (p.1, 120)) →
      ∃ stf, foldSteps midiStep st objs = .ok stf ∧
        stf.doc.numTracks = st.doc.numTracks ∧
        stf.doc.trackNames = enumFrom 0 (seenFold seen (objs.map getInstr)) ∧
        stf.doc.tempos =
          (enumFrom 0 (seenFold seen (objs.map getInstr))).map (fun p => (p.1, 120)) ∧
        stf.doc.programs = st.doc.programs ++
          objs.map (fun x => (idxOf (seenFold seen (objs.map getInstr)) (getInstr x), 0, 1)) ∧
        stf.doc.notes = st.doc.notes ++
          objs.map (fun x =>
            (⟨idxOf (seenFold seen (objs.map getInstr)) (getInstr x), 0,
              note_to_midi (getNoteTok x), 0, pyInt (getSize x), 100⟩ : NoteEvent)) := by
  induction objs with
  | nil =>
    intro st seen hwf hdet hnt htn htp
    exact ⟨st, rfl, rfl, by simpa [seenFold] using htn, by simpa [seenFold] using htp,
      by simp, by simp⟩
  | cons r rs ih =>
    intro st seen hwf hdet hnt htn htp
    have hr := hwf r (List.mem_cons_self r rs)
    have hrs : ∀ x ∈ rs, midiWF x = true := fun x hx => hwf x (List.mem_cons_of_mem r hx)
    unfold foldSteps
    rw [midi_step_wf st seen r hr hdet hnt]
    dsimp only
    have htn2 : st.doc.trackNames ++
        (if getInstr r ∈ seen then [] else [(seen.length, getInstr r)]) =
        enumFrom 0 (dedupStep seen (getInstr r)) := by
      by_cases hi : getInstr r ∈ seen
      · simp [dedupStep, hi, htn]
      · rw [htn]
        simp [dedupStep, hi, enumFrom_append]
    have htp2 : st.doc.tempos ++
        (if getInstr r ∈ seen then [] else [(seen.length, 120)]) =
        (enumFrom 0 (dedupStep seen (getInstr r))).map (fun p => (p.1, 120)) := by
      by_cases hi : getInstr r ∈ seen
      · simp [dedupStep, hi, htp]
      · rw [htp]
        simp [dedupStep, hi, enumFrom_append]
    obtain ⟨stf, hfold, hnum, htn', htp', hpr', hno'⟩ :=
      ih { details := assocFrom 0 (dedupStep seen (getInstr r)),
           nextTrack := (dedupStep seen (getInstr r)).length,
           doc := { numTracks := st.doc.numTracks,
                    trackNames := st.doc.trackNames ++
                      (if getInstr r ∈ seen then [] else [(seen.length, getInstr r)]),
                    tempos := st.doc.tempos ++
                      (if getInstr r ∈ seen then [] else [(seen.length, 120)]),
                    programs := st.doc.programs ++
                      [(idxOf (dedupStep seen (getInstr r)) (getInstr r), 0, 1)],
                    notes := st.doc.notes ++
                      [⟨idxOf (dedupStep seen (getInstr r)) (getInstr r), 0,
                        note_to_midi (getNoteTok r), 0, pyInt (getSize r), 100⟩] } }
        (dedupStep seen (getInstr r)) hrs rfl rfl htn2 htp2
    obtain ⟨t, htS⟩ := seenFold_prefix (rs.map getInstr) (dedupStep seen (getInstr r))
    have hidx : idxOf (seenFold (dedupStep seen (getInstr r)) (rs.map getInstr))
        (getInstr r) = idxOf (dedupStep seen (getInstr r)) (getInstr r) := by
      rw [htS]
      exact idxOf_append (getInstr r) (dedupStep seen (getInstr r)) t
        (mem_dedupStep seen (getInstr r))
    refine ⟨stf, hfold, ?_, ?_, ?_, ?_, ?_⟩
    · simpa using hnum
    · rw [List.map_cons, seenFold_cons]
      simpa using htn'
    · rw [List.map_cons, seenFold_cons]
      simpa using htp'
    · simp only [List.map_cons, seenFold_cons, hpr']
      rw [hidx]
      simp
    · simp only [List.map_cons, seenFold_cons, hno']
      rw [hidx]
      simp

/-- A record that passes the drawn-shape position test has a position
field holding a 3-tuple. -/
theorem pos3_of_match {r : Dict}
    (h : (match posVal r with
          | some [_, _, _] => true
          | _ => false) = true) :
    ∃ x y z, alistLookup r "position".data = some (Value.pos [x, y, z]) := by
  unfold posVal at h
  cases hpl : alistLookup r "position".data with
  | none => rw [hpl] at h; simp at h
  | some v =>
    cases v with
    | str s => rw [hpl] at h; simp at h
    | num q => rw [hpl] at h; simp at h
    | pos l =>
      rw [hpl] at h
      dsimp only at h
      rcases l with _ | ⟨x, l⟩
      · simp at h
      rcases l with _ | ⟨y, l⟩
      · simp at h
      rcases l with _ | ⟨z, l⟩
      · simp at h
      rcases l with _ | ⟨w, l⟩
      · exact ⟨x, y, z, rfl⟩
      · simp at h

/-- On a record the scene builder accepts, one loop iteration appends
exactly the solid `mkSolid` describes (or nothing, when the shape token
is unrecognized). -/
theorem vtk_step_wf (acc : List Solid) (r : Dict) (h : vtkWF r = true) :
    vtkStep acc r = .ok (acc ++ (mkSolid r).toList) := by
  unfold vtkWF at h
  simp only [Bool.and_eq_true] at h
  obtain ⟨⟨⟨hsh, hco⟩, hsz⟩, hpos⟩ := h
  obtain ⟨s₀, shp, his, hsp⟩ :
      ∃ s₀ shp, alistLookup r "instrument_shape".data = some (Value.str s₀) ∧
        (splitChar '_' s₀)[1]? = some shp := by
    unfold shapeTok at hsh
    cases his : alistLookup r "instrument_shape".data with
    | none => rw [his] at hsh; simp at hsh
    | some v =>
      cases v with
      | num q => rw [his] at hsh; simp at hsh
      | pos l => rw [his] at hsh; simp at hsh
      | str s₀ =>
        rw [his] at hsh
        dsimp only at hsh
        cases hsp : (splitChar '_' s₀)[1]? with
        | none => rw [hsp] at hsh; simp at hsh
        | some shp => exact ⟨s₀, shp, rfl, hsp⟩
  obtain ⟨c₀, col, hnc, hcp⟩ :
      ∃ c₀ col, alistLookup r "note_color".data = some (Value.str c₀) ∧
        (splitChar '_' c₀)[1]? = some col := by
    unfold colorTok at hco
    cases hnc : alistLookup r "note_color".data with
    | none => rw [hnc] at hco; simp at hco
    | some v =>
      cases v with
      | num q => rw [hnc] at hco; simp at hco
      | pos l => rw [hnc] at hco; simp at hco
      | str c₀ =>
        rw [hnc] at hco
        dsimp only at hco
        cases hcp : (splitChar '_' c₀)[1]? with
        | none => rw [hcp] at hco; simp at hco
        | some col => exact ⟨c₀, col, rfl, hcp⟩
  obtain ⟨q, hsd⟩ :
      ∃ q, alistLookup r "size_duration".data = some (Value.num q) := by
    cases hsd : alistLookup r "size_duration".data with
    | none => rw [hsd] at hsz; simp at hsz
    | some v =>
      cases v with
      | num q => exact ⟨q, rfl⟩
      | str s => rw [hsd] at hsz; simp at hsz
      | pos l => rw [hsd] at hsz; simp at hsz
  have hshape : shapeTok r = some shp := by
    simp only [shapeTok, his]; exact hsp
  have hcolor : colorTok r = some col := by
    simp only [colorTok, hnc]; exact hcp
  have hsize : getSize r = q := by
    simp only [getSize, hsd]
  simp only [vtkStep, his, hsp, hnc, hcp, hsd]
  simp only [mkSolid, hshape, hcolor, hsize]
  by_cases h1 : shp = "sphere".data
  · rw [hshape] at hpos
    rw [h1] at hpos ⊢
    rw [if_pos (by simp)] at hpos
    obtain ⟨x, y, z, hppos⟩ := pos3_of_match hpos
    rw [hppos]
    simp only [if_pos rfl, posVal, hppos]
    rfl
  · by_cases h2 : shp = "cube".data
    · rw [hshape] at hpos
      rw [h2] at hpos ⊢
      rw [if_pos (by simp)] at hpos
      obtain ⟨x, y, z, hppos⟩ := pos3_of_match hpos
      rw [hppos]
      rw [if_neg (by decide), if_pos rfl, if_neg (by decide), if_pos rfl]
      simp only [posVal, hppos]
      rfl
    · rw [if_neg h1, if_neg h2, if_neg h1, if_neg h2]
      simp

/-- On accepted records, the scene loop appends exactly the recognized
solids in record order, from any accumulator. -/
theorem vtk_fold (objs : List Dict) :
    ∀ acc : List Solid, (∀ r ∈ objs, vtkWF r = true) →
      foldSteps vtkStep acc objs = .ok (acc ++ objs.filterMap mkSolid) := by
  induction objs with
  | nil => intro acc h; simp [foldSteps]
  | cons r rs ih =>
    intro acc h
    have hr : vtkWF r = true := h r (List.mem_cons_self r rs)
    have hrs : ∀ x ∈ rs, vtkWF x = true := fun x hx => h x (List.mem_cons_of_mem r hx)
    unfold foldSteps
    rw [vtk_step_wf acc r hr]
    dsimp only
    rw [ih _ hrs, List.filterMap_cons]
    cases mkSolid r <;> simp

/-- Python's `int()` truncation agrees with the mathematical floor on
non-negative values. -/
theorem pyInt_eq_floor (p : PyNum) (h : 0 ≤ pyVal p) : pyInt p = ⌊pyVal p⌋ := by
  rcases p with ⟨n, d⟩
  simp only [pyInt, pyVal] at h ⊢
  rcases Nat.eq_zero_or_pos d with rfl | hd
  · simp [Int.tdiv]
    cases n <;> simp [Int.tdiv]
  · have hq : (0 : ℚ) < (d : ℚ) := by exact_mod_cast hd
    have hn : 0 ≤ n := by
      rcases div_nonneg_iff.mp h with ⟨h1, _⟩ | ⟨_, h2⟩
      · exact_mod_cast h1
      · exact absurd hq (not_lt.mpr h2)
    obtain ⟨m, rfl⟩ := Int.eq_ofNat_of_zero_le hn
    rw [Rat.floor_intCast_div_natCast]
    rfl

/-! Claim theorems. -/

/-- C1 counterexample: the source appends `current_object` by reference
and never resets it on `end_object`.  On
`begin_object / a: b / end_object / end_object` the claim predicts a
single emitted record `{a: b}`, but the parser emits the same record
twice; on `begin_object / a: b / end_object / c: d` the claim predicts
the emitted record stays `{a: b}`, but the later field line mutates it to
`{a: b, c: d}`. -/
theorem C1_counterexample :
    load_objects_from_mvo
        ["begin_object".data, "a: b".data, "end_object".data, "end_object".data]
      ≠ .ok [[("a".data, Value.str "b".data)]] ∧
    load_objects_from_mvo
        ["begin_object".data, "a: b".data, "end_object".data, "end_object".data]
      = .ok [[("a".data, Value.str "b".data)], [("a".data, Value.str "b".data)]] ∧
    load_objects_from_mvo
        ["begin_object".data, "a: b".data, "end_object".data, "c: d".data]
      = .ok [[("a".data, Value.str "b".data), ("c".data, Value.str "d".data)]] :=
  ⟨by decide, by decide, by decide⟩

/-- C1 amended: on `end_object` with a non-empty accumulator the parser
appends a reference to the accumulator (its arena index) to the result
sequence and does not reset the accumulator; consequently two
consecutive `end_object` lines append the same record twice, and field
lines arriving before the next `begin_object` mutate the emitted
record. -/
theorem C1_amended :
    (∀ st : PState, parseStep st "end_object".data =
        .ok { st with
              objects := if (getCur st).isEmpty then st.objects
                         else st.objects ++ [st.cur] }) ∧
    (∀ st : PState, (getCur st).isEmpty = false →
        foldSteps parseStep st ["end_object".data, "end_object".data] =
          .ok { st with objects := st.objects ++ [st.cur, st.cur] }) := by
  constructor
  · exact parse_end_step
  · intro st h
    unfold foldSteps
    rw [parse_end_step st]
    have hcur : getCur { st with objects := st.objects ++ [st.cur] } = getCur st := rfl
    unfold foldSteps
    rw [h, if_neg (by simp), parse_end_step, hcur, h, if_neg (by simp)]
    simp only [List.append_assoc, List.cons_append, List.nil_append]
    rfl

/-- C1 amended witness at a concrete state: accumulator `{a: b}` at
index 0, two `end_object` lines append index 0 twice. -/
theorem C1_amended_witness :
    (getCur ⟨[[("a".data, Value.str "b".data)]], [], 0⟩).isEmpty = false ∧
    foldSteps parseStep ⟨[[("a".data, Value.str "b".data)]], [], 0⟩
        ["end_object".data, "end_object".data] =
      .ok ⟨[[("a".data, Value.str "b".data)]], [0, 0], 0⟩ :=
  ⟨by decide, by
    have := C1_amended.2 ⟨[[("a".data, Value.str "b".data)]], [], 0⟩ (by decide)
    simpa using this⟩

/-- C2: for a sequence of well-formed `begin_object`/`end_object` blocks
the parser returns one record per block with a non-empty body, in source
order — so N blocks with at least one field line each yield exactly N
records; a `begin_object` immediately followed by `end_object`
contributes no record; and a trailing `begin_object` never closed before
end-of-input (with any well-formed field lines after it) contributes no
record. -/
theorem C2_blocks (blocks : List (List (List Char))) (trailing : List (List Char))
    (hb : ∀ b ∈ blocks, ∀ l ∈ b, isGoodField l = true)
    (ht : ∀ l ∈ trailing, isGoodField l = true) :
    load_objects_from_mvo (blocksLines blocks) =
      .ok ((blocks.filter (fun b => !b.isEmpty)).map recordOf) ∧
    load_objects_from_mvo (blocksLines blocks ++ "begin_object".data :: trailing) =
      .ok ((blocks.filter (fun b => !b.isEmpty)).map recordOf) := by
  obtain ⟨c, hc⟩ := parse_blocks_fold blocks initPState hb
  have hc' : foldSteps parseStep initPState (blocksLines blocks) =
      .ok { arena := [[]] ++ blocks.map recordOf,
            objects := emittedIdx 1 blocks, cur := c } := by
    rw [hc]
    rfl
  have h1 : ([[]] : List Dict).length = 1 := rfl
  constructor
  · unfold load_objects_from_mvo
    rw [hc']
    dsimp only
    have hm := emitted_map blocks [[]] []
    rw [h1] at hm
    simp only [List.append_nil] at hm
    rw [hm]
  · unfold load_objects_from_mvo
    rw [foldSteps_append, hc']
    dsimp only
    rw [foldSteps_cons, parse_begin_step]
    dsimp only
    rw [parse_fields_fold trailing _ ht (by simp)]
    dsimp only
    have hg : getCur
        { arena := ([[]] ++ blocks.map recordOf) ++ [([] : Dict)],
          objects := emittedIdx 1 blocks,
          cur := ([[]] ++ blocks.map recordOf).length } = [] := by
      unfold getCur
      exact getD_append_cons _ [] [] []
    rw [hg]
    have hs : (([[]] ++ blocks.map recordOf) ++ [([] : Dict)]).set
        ([[]] ++ blocks.map recordOf).length (recordFold [] trailing) =
        ([[]] ++ blocks.map recordOf) ++ [recordFold [] trailing] :=
      set_append_cons _ [] _ []
    rw [hs]
    have hm := emitted_map blocks [[]] [recordFold [] trailing]
    rw [h1] at hm
    rw [hm]

/-- C2 witness: one block `{a: b}`, one empty block, one block
`{size_duration: 2.5}`, and a trailing unclosed `begin_object` holding
`x: y`: the parse yields exactly the two non-empty records, in order,
with and without the trailing garbage. -/
theorem C2_witness :
    (∀ b ∈ [["a: b".data], ([] : List (List Char)), ["size_duration: 2.5".data]],
        ∀ l ∈ b, isGoodField l = true) ∧
    (∀ l ∈ ["x: y".data], isGoodField l = true) ∧
    load_objects_from_mvo (blocksLines [["a: b".data], [], ["size_duration: 2.5".data]]) =
      .ok [[("a".data, Value.str "b".data)],
           [("size_duration".data, Value.num ⟨25, 10⟩)]] ∧
    load_objects_from_mvo (blocksLines [["a: b".data], [], ["size_duration: 2.5".data]] ++
        "begin_object".data :: ["x: y".data]) =
      .ok [[("a".data, Value.str "b".data)],
           [("size_duration".data, Value.num ⟨25, 10⟩)]] :=
  ⟨by decide, by decide,
   ((C2_blocks [["a: b".data], [], ["size_duration: 2.5".data]] ["x: y".data]
      (by decide) (by decide)).1).trans (by decide),
   ((C2_blocks [["a: b".data], [], ["size_duration: 2.5".data]] ["x: y".data]
      (by decide) (by decide)).2).trans (by decide)⟩

/-- C3 counterexample: on the single input line `key:value` (a bare
colon, no colon-space) the claim predicts the line is ignored and the
parse completes without error, yielding no records; the code instead
raises `ValueError` from the two-element unpacking of
`line.split(': ', 1)`, because the guard tests `':' in line` but the
split needs `': '`. -/
theorem C3_counterexample :
    isOkE (load_objects_from_mvo ["key:value".data]) = false ∧
    load_objects_from_mvo ["key:value".data] ≠ .ok [] :=
  ⟨by decide, by decide⟩

/-- C3 amended: a line that is blank after stripping, or contains no
colon at all, is ignored (the state is unchanged and the parse does not
fail); but a non-marker, non-blank line that contains a colon without
the two-character sequence `: ` makes the parse fail. -/
theorem C3_amended :
    (∀ (st : PState) (l : List Char),
        pyStrip l ≠ "begin_object".data → pyStrip l ≠ "end_object".data →
        ((pyStrip l).isEmpty = true ∨ containsChar ':' (pyStrip l) = false) →
        parseStep st l = .ok st) ∧
    (∀ (st : PState) (l : List Char),
        pyStrip l ≠ "begin_object".data → pyStrip l ≠ "end_object".data →
        (pyStrip l).isEmpty = false → containsChar ':' (pyStrip l) = true →
        splitOnce2 ':' ' ' (pyStrip l) = none →
        isOkE (parseStep st l) = false) := by
  constructor
  · intro st l h1 h2 h3
    unfold parseStep
    rw [if_neg h1, if_neg h2, if_neg (by rcases h3 with h3 | h3 <;> simp [h3])]
  · intro st l h1 h2 h3 h4 h5
    unfold parseStep
    rw [if_neg h1, if_neg h2, if_pos (by simp [h3, h4]), h5]
    rfl

/-- C3 amended witness: `hello world` (no colon) is ignored from the
entry state, while `key:value` fails from the entry state. -/
theorem C3_amended_witness :
    (pyStrip "hello world".data ≠ "begin_object".data ∧
     pyStrip "hello world".data ≠ "end_object".data ∧
     containsChar ':' (pyStrip "hello world".data) = false ∧
     parseStep initPState "hello world".data = .ok initPState) ∧
    (splitOnce2 ':' ' ' (pyStrip "key:value".data) = none ∧
     isOkE (parseStep initPState "key:value".data) = false) :=
  ⟨⟨by decide, by decide, by decide,
    C3_amended.1 initPState "hello world".data (by decide) (by decide) (Or.inr (by decide))⟩,
   ⟨by decide,
    C3_amended.2 initPState "key:value".data (by decide) (by decide) (by decide) (by decide)
      (by decide)⟩⟩

/-- C4 counterexample: a record whose `instrument_shape` is `piano` (no
underscore) and whose other fields are all well-formed.  The claim
predicts the scene builder silently skips it (result `.ok []`); the code
instead raises `IndexError` at `obj["instrument_shape"].split('_')[1]`,
so the spatial generation fails. -/
theorem C4_counterexample :
    createVtkFromObjects
        [[("instrument_shape".data, Value.str "piano".data),
          ("note_color".data, Value.str "C4_red".data),
          ("size_duration".data, Value.num ⟨1, 1⟩),
          ("position".data, Value.pos [⟨0, 1⟩, ⟨0, 1⟩, ⟨0, 1⟩])]] ≠ .ok [] ∧
    isOkE (createVtkFromObjects
        [[("instrument_shape".data, Value.str "piano".data),
          ("note_color".data, Value.str "C4_red".data),
          ("size_duration".data, Value.num ⟨1, 1⟩),
          ("position".data, Value.pos [⟨0, 1⟩, ⟨0, 1⟩, ⟨0, 1⟩])]]) = false :=
  ⟨by decide, by decide⟩

/-- C4 amended: whenever the record sequence contains a record whose
`instrument_shape` value has no component after the first underscore
(in particular, contains no underscore), the scene build raises
`IndexError` and the whole spatial generation fails — the record is not
silently skipped. -/
theorem C4_amended (objs : List Dict)
    (h : ∃ r ∈ objs, ∃ s,
        alistLookup r "instrument_shape".data = some (Value.str s) ∧
        (splitChar '_' s)[1]? = none) :
    isOkE (createVtkFromObjects objs) = false := by
  unfold createVtkFromObjects
  exact foldSteps_isOkE_false vtkStep _
    (fun acc r hr => vtk_noshape_step acc r hr) objs [] h

/-- C4 amended witness: the concrete record of the counterexample. -/
theorem C4_amended_witness :
    (alistLookup
        [("instrument_shape".data, Value.str "piano".data),
         ("note_color".data, Value.str "C4_red".data),
         ("size_duration".data, Value.num ⟨1, 1⟩),
         ("position".data, Value.pos [⟨0, 1⟩, ⟨0, 1⟩, ⟨0, 1⟩])]
        "instrument_shape".data = some (Value.str "piano".data) ∧
     (splitChar '_' "piano".data)[1]? = none) ∧
    isOkE (createVtkFromObjects
        [[("instrument_shape".data, Value.str "piano".data),
          ("note_color".data, Value.str "C4_red".data),
          ("size_duration".data, Value.num ⟨1, 1⟩),
          ("position".data, Value.pos [⟨0, 1⟩, ⟨0, 1⟩, ⟨0, 1⟩])]]) = false :=
  ⟨⟨by decide, by decide⟩,
   C4_amended _
     ⟨[("instrument_shape".data, Value.str "piano".data),
       ("note_color".data, Value.str "C4_red".data),
       ("size_duration".data, Value.num ⟨1, 1⟩),
       ("position".data, Value.pos [⟨0, 1⟩, ⟨0, 1⟩, ⟨0, 1⟩])],
      by decide, "piano".data, by decide, by decide⟩⟩

/-- C5: the musical duration the score builder computes from a
`size_duration` value `d` is `int(d)`, which equals `⌊d⌋` for every
`d ≥ 0`; on the parsed literals `2.9`, `1.9` and `0.1` it yields 2, 1
and 0. -/
theorem C5_truncation :
    (∀ p : PyNum, 0 ≤ pyVal p → pyInt p = ⌊pyVal p⌋) ∧
    (pyFloat "2.9".data).map pyInt = some 2 ∧
    (pyFloat "1.9".data).map pyInt = some 1 ∧
    (pyFloat "0.1".data).map pyInt = some 0 :=
  ⟨pyInt_eq_floor, by decide, by decide, by decide⟩

/-- C5 witness: the truncation law applied at the parsed value of
`2.9`. -/
theorem C5_witness :
    0 ≤ pyVal ⟨29, 10⟩ ∧ pyInt ⟨29, 10⟩ = ⌊pyVal ⟨29, 10⟩⌋ :=
  ⟨by unfold pyVal; positivity,
   C5_truncation.1 ⟨29, 10⟩ (by unfold pyVal; positivity)⟩

/-- C6: on records the score builder accepts, it produces exactly the
specified document: one track per distinct instrument token with indices
in first-encounter order starting at 0, each named by its instrument and
given tempo 120, and exactly one note event per input record, placed on
its record's instrument's track. -/
theorem C6_tracks (objs : List Dict) (h : ∀ r ∈ objs, midiWF r = true) :
    createMidiFromObjects objs = .ok (scoreSpec objs) := by
  unfold createMidiFromObjects
  obtain ⟨stf, hfold, hnum, htn, htp, hpr, hno⟩ :=
    midi_fold objs
      { details := [], nextTrack := 0,
        doc := { numTracks := objs.length, trackNames := [], tempos := [],
                 programs := [], notes := [] } } [] h rfl rfl rfl rfl
  rw [hfold]
  have hdoc : stf.doc = scoreSpec objs := by
    rw [show stf.doc = (⟨stf.doc.numTracks, stf.doc.trackNames, stf.doc.tempos,
        stf.doc.programs, stf.doc.notes⟩ : MidiDoc) from rfl]
    rw [hnum, htn, htp, hpr, hno]
    simp [scoreSpec, dedupFirst]
  dsimp only
  rw [hdoc]

/-- C6 witness: two records both with instrument `piano` (different
shapes) yield one `piano` track, name `piano`, tempo 120, carrying two
note events; each record contributes exactly one note on track 0. -/
theorem C6_witness :
    (∀ r ∈ [[("instrument_shape".data, Value.str "piano_sphere".data),
             ("note_color".data, Value.str "C4_red".data),
             ("size_duration".data, Value.num ⟨2, 1⟩)],
            [("instrument_shape".data, Value.str "piano_cube".data),
             ("note_color".data, Value.str "G4_blue".data),
             ("size_duration".data, Value.num ⟨15, 10⟩)]],
        midiWF r = true) ∧
    createMidiFromObjects
        [[("instrument_shape".data, Value.str "piano_sphere".data),
          ("note_color".data, Value.str "C4_red".data),
          ("size_duration".data, Value.num ⟨2, 1⟩)],
         [("instrument_shape".data, Value.str "piano_cube".data),
          ("note_color".data, Value.str "G4_blue".data),
          ("size_duration".data, Value.num ⟨15, 10⟩)]]
      = .ok { numTracks := 2, trackNames := [(0, "piano".data)], tempos := [(0, 120)],
              programs := [(0, 0, 1), (0, 0, 1)],
              notes := [⟨0, 0, 60, 0, 2, 100⟩, ⟨0, 0, 67, 0, 1, 100⟩] } :=
  ⟨by decide, (C6_tracks _ (by decide)).trans (by decide)⟩

/-- C7: `note_to_midi` consults the fixed table and defaults every token
absent from it — such as `Z9` — to 60 (Middle C); the table carries the
standard diatonic pitches C4..F5 with C4 = 60 and G4 = 67. -/
theorem C7_note_table :
    (∀ s : List Char, alistLookup note_mappings s = none → note_to_midi s = 60) ∧
    note_to_midi "C4".data = 60 ∧ note_to_midi "D4".data = 62 ∧
    note_to_midi "E4".data = 64 ∧ note_to_midi "F4".data = 65 ∧
    note_to_midi "G4".data = 67 ∧ note_to_midi "A4".data = 69 ∧
    note_to_midi "B4".data = 71 ∧ note_to_midi "C5".data = 72 ∧
    note_to_midi "D5".data = 74 ∧ note_to_midi "E5".data = 76 ∧
    note_to_midi "F5".data = 77 ∧ note_to_midi "Z9".data = 60 :=
  ⟨fun s h => by unfold note_to_midi; rw [h]; rfl,
   by decide, by decide, by decide, by decide, by decide, by decide,
   by decide, by decide, by decide, by decide, by decide⟩

/-- C7 witness: the default branch applied at the token `Z9`. -/
theorem C7_witness :
    alistLookup note_mappings "Z9".data = none ∧ note_to_midi "Z9".data = 60 :=
  ⟨by decide, C7_note_table.1 "Z9".data (by decide)⟩

/-- C8: on records the scene builder accepts (shape and color tokens
resolve, size is a float, drawn records have a 3-tuple position), the
builder emits one solid per record whose shape token is `sphere` (a
sphere of radius `size_duration`) or `cube` (a cube with all three edge
lengths `size_duration`), skips every record with any other shape token,
and preserves the relative record order — `List.filterMap mkSolid`. -/
theorem C8_scene (objs : List Dict) (h : ∀ r ∈ objs, vtkWF r = true) :
    createVtkFromObjects objs = .ok (objs.filterMap mkSolid) := by
  unfold createVtkFromObjects
  rw [vtk_fold objs [] h]
  rfl

/-- C8 witness: a sphere record, a `piano_pyramid` record (no position
field at all — it is skipped regardless of its other fields), and a cube
record yield exactly the sphere and the cube, in order. -/
theorem C8_witness :
    (∀ r ∈ [[("instrument_shape".data, Value.str "piano_sphere".data),
             ("note_color".data, Value.str "C4_red".data),
             ("size_duration".data, Value.num ⟨2, 1⟩),
             ("position".data, Value.pos [⟨0, 1⟩, ⟨0, 1⟩, ⟨0, 1⟩])],
            [("instrument_shape".data, Value.str "piano_pyramid".data),
             ("note_color".data, Value.str "G4_blue".data),
             ("size_duration".data, Value.num ⟨7, 1⟩)],
            [("instrument_shape".data, Value.str "drum_cube".data),
             ("note_color".data, Value.str "G4_blue".data),
             ("size_duration".data, Value.num ⟨15, 10⟩),
             ("position".data, Value.pos [⟨1, 1⟩, ⟨1, 1⟩, ⟨1, 1⟩])]],
        vtkWF r = true) ∧
    createVtkFromObjects
        [[("instrument_shape".data, Value.str "piano_sphere".data),
          ("note_color".data, Value.str "C4_red".data),
          ("size_duration".data, Value.num ⟨2, 1⟩),
          ("position".data, Value.pos [⟨0, 1⟩, ⟨0, 1⟩, ⟨0, 1⟩])],
         [("instrument_shape".data, Value.str "piano_pyramid".data),
          ("note_color".data, Value.str "G4_blue".data),
          ("size_duration".data, Value.num ⟨7, 1⟩)],
         [("instrument_shape".data, Value.str "drum_cube".data),
          ("note_color".data, Value.str "G4_blue".data),
          ("size_duration".data, Value.num ⟨15, 10⟩),
          ("position".data, Value.pos [⟨1, 1⟩, ⟨1, 1⟩, ⟨1, 1⟩])]]
      = .ok [Solid.sphere ⟨2, 1⟩ "red".data [⟨0, 1⟩, ⟨0, 1⟩, ⟨0, 1⟩],
             Solid.cube ⟨15, 10⟩ ⟨15, 10⟩ ⟨15, 10⟩ "blue".data
               [⟨1, 1⟩, ⟨1, 1⟩, ⟨1, 1⟩]] :=
  ⟨by decide, (C8_scene _ (by decide)).trans (by decide)⟩

/-- C9: an input containing a `position` or `size_duration` field line
whose value is not numeric makes the parse fail, and therefore neither a
record sequence nor a musical or spatial artifact is produced. -/
theorem C9_malformed_field (lines : List (List Char))
    (h : ∃ l ∈ lines, badNumLine l = true) :
    isOkE (load_objects_from_mvo lines) = false ∧
    isOkE (create_midi_from_mvo lines) = false ∧
    isOkE (create_vtk_from_mvo lines) = false := by
  have hp : isOkE (foldSteps parseStep initPState lines) = false :=
    foldSteps_isOkE_false parseStep (fun l => badNumLine l = true)
      (fun st l hl => parse_bad_step st l hl) lines initPState h
  cases hres : foldSteps parseStep initPState lines with
  | ok st => rw [hres] at hp; exact absurd hp (by simp [isOkE])
  | error e =>
    refine ⟨?_, ?_, ?_⟩ <;>
      simp [load_objects_from_mvo, create_midi_from_mvo, create_vtk_from_mvo, hres, isOkE]

/-- C9 witness: a block whose `size_duration` value is `abc` aborts the
parse and both generations. -/
theorem C9_witness :
    (∃ l ∈ ["begin_object".data, "size_duration: abc".data, "end_object".data],
        badNumLine l = true) ∧
    isOkE (load_objects_from_mvo
        ["begin_object".data, "size_duration: abc".data, "end_object".data]) = false ∧
    isOkE (create_midi_from_mvo
        ["begin_object".data, "size_duration: abc".data, "end_object".data]) = false ∧
    isOkE (create_vtk_from_mvo
        ["begin_object".data, "size_duration: abc".data, "end_object".data]) = false :=
  ⟨by decide, C9_malformed_field _ (by decide)⟩

/-- C10: the parser does not enforce the required fields — it happily
emits a record holding only `foo: bar` — and the score builder fails
with a key-lookup error on any record sequence containing a non-empty
record that lacks `instrument_shape`, `note_color` or `size_duration`,
aborting musical generation. -/
theorem C10_missing_fields :
    (∀ objs : List Dict,
        (∃ r ∈ objs, r ≠ [] ∧
          (alistLookup r "instrument_shape".data = none ∨
           alistLookup r "note_color".data = none ∨
           alistLookup r "size_duration".data = none)) →
        isOkE (createMidiFromObjects objs) = false) ∧
    load_objects_from_mvo ["begin_object".data, "foo: bar".data, "end_object".data] =
      .ok [[("foo".data, Value.str "bar".data)]] ∧
    isOkE (create_midi_from_mvo
        ["begin_object".data, "foo: bar".data, "end_object".data]) = false := by
  refine ⟨?_, by decide, by decide⟩
  intro objs h
  unfold createMidiFromObjects
  have habs := foldSteps_isOkE_false midiStep
    (fun r => r ≠ [] ∧
      (alistLookup r "instrument_shape".data = none ∨
       alistLookup r "note_color".data = none ∨
       alistLookup r "size_duration".data = none))
    (fun st r hr => midi_missing_step r hr.2 st) objs
    { details := [], nextTrack := 0,
      doc := { numTracks := objs.length, trackNames := [], tempos := [],
               programs := [], notes := [] } } h
  cases hres : foldSteps midiStep
      { details := [], nextTrack := 0,
        doc := { numTracks := objs.length, trackNames := [], tempos := [],
                 programs := [], notes := [] } } objs with
  | ok st => rw [hres] at habs; exact absurd habs (by simp [isOkE])
  | error e => rfl

/-- C10 witness: a record holding only `instrument_shape` (no
`note_color`) aborts the score build. -/
theorem C10_witness :
    (([("instrument_shape".data, Value.str "piano_sphere".data)] : Dict) ≠ [] ∧
     alistLookup [("instrument_shape".data, Value.str "piano_sphere".data)]
        "note_color".data = none) ∧
    isOkE (createMidiFromObjects
        [[("instrument_shape".data, Value.str "piano_sphere".data)]]) = false :=
  ⟨⟨by decide, by decide⟩,
   C10_missing_fields.1 _
     ⟨[("instrument_shape".data, Value.str "piano_sphere".data)],
      by decide, by decide, Or.inr (Or.inl (by decide))⟩⟩

end MVO
